import Mathlib

/-!
Shallow embedding of the asset-enricher service (src/kml_index.py and
src/app.py): sector classification and normalization, KML coordinate
parsing, polygon extraction from placemarks, spatial-index construction,
point lookup, and per-row enrichment.

Modelling conventions: Python float values are modelled exactly as
fractions of integers (the type Q below) so that every operation is
kernel-computable; a Python exception is modelled as the `none` branch of
an `Option` result; the geometric predicates supplied by the shapely
library (boundary-inclusive `covers`, polygon validity) are modelled
mathematically for a single outer ring, since only outer boundaries are
ever indexed.
-/

namespace AssetEnricher

/-- Exact rational value modelling a Python float: an integer numerator
over a positive integer denominator. Fractions are not reduced;
comparisons cross-multiply, so evaluation needs no gcd. -/
structure Q where
  num : ℤ
  den : ℤ
  pos : 0 < den

instance : DecidableEq Q := fun a b =>
  if h : a.num = b.num ∧ a.den = b.den then
    isTrue (by
      cases a
      cases b
      obtain ⟨h1, h2⟩ := h
      subst h1
      subst h2
      rfl)
  else
    isFalse (by
      intro he
      cases he
      exact h ⟨rfl, rfl⟩)

/-- Embed an integer. -/
def qInt (n : ℤ) : Q := ⟨n, 1, one_pos⟩

/-- Addition of fraction values. -/
def addQ (a b : Q) : Q :=
  ⟨a.num * b.den + b.num * a.den, a.den * b.den, mul_pos a.pos b.pos⟩

/-- Subtraction of fraction values. -/
def subQ (a b : Q) : Q :=
  ⟨a.num * b.den - b.num * a.den, a.den * b.den, mul_pos a.pos b.pos⟩

/-- Multiplication of fraction values. -/
def mulQ (a b : Q) : Q := ⟨a.num * b.num, a.den * b.den, mul_pos a.pos b.pos⟩

/-- Division of fraction values; division by zero yields 0 (it is always
guarded in the modelled code, exactly as in the source). -/
def divQ (a b : Q) : Q :=
  if h : 0 < b.num then ⟨a.num * b.den, a.den * b.num, mul_pos a.pos h⟩
  else if h2 : b.num < 0 then
    ⟨-(a.num * b.den), a.den * -b.num, mul_pos a.pos (neg_pos.mpr h2)⟩
  else qInt 0

/-- Value comparison: less than or equal. -/
def leQ (a b : Q) : Bool := decide (a.num * b.den ≤ b.num * a.den)

/-- Value comparison: strictly less than. -/
def ltQ (a b : Q) : Bool := decide (a.num * b.den < b.num * a.den)

/-- Value equality of fractions (Python float equality). -/
def eqQ (a b : Q) : Bool := decide (a.num * b.den = b.num * a.den)

/-- Value minimum. -/
def minQ (a b : Q) : Q := if leQ a b then a else b

/-- Value maximum. -/
def maxQ (a b : Q) : Q := if leQ a b then b else a

/-- Integer power of ten as a fraction value. -/
def powTenQ (z : ℤ) : Q :=
  if 0 ≤ z then ⟨(10 : ℤ) ^ z.toNat, 1, one_pos⟩
  else ⟨1, (10 : ℤ) ^ z.natAbs, pow_pos (by norm_num) _⟩

/-- Value equality lifted to optional results. -/
def optQEq : Option Q → Option Q → Bool
  | some a, some b => eqQ a b
  | none, none => true
  | _, _ => false

/-- Characters treated as whitespace by Python's str.strip and by the
regex class \s used in _parse_kml_coordinates (ASCII fragment). -/
def pyIsSpace (c : Char) : Bool :=
  c == ' ' || c == '\t' || c == '\n' || c == '\r' || c == '\x0b' || c == '\x0c'

/-- List-level trim of leading and trailing whitespace characters. -/
def pyStripL (l : List Char) : List Char :=
  ((l.dropWhile pyIsSpace).reverse.dropWhile pyIsSpace).reverse

/-- Python str.strip with no argument: trim whitespace on both ends. -/
def pyStrip (s : String) : String := String.mk (pyStripL s.data)

/-- Python str.lower, as applied to the ASCII sector keywords. -/
def pyLower (s : String) : String := String.mk (s.data.map Char.toLower)

/-- Does the pattern occur as a leading block of the text list. -/
def leadsWith : List Char → List Char → Bool
  | [], _ => true
  | _ :: _, [] => false
  | p :: ps, c :: cs => p == c && leadsWith ps cs

/-- Substring occurrence on character lists: does pat occur somewhere in
the text. -/
def containsAux (pat : List Char) : List Char → Bool
  | [] => pat.isEmpty
  | c :: cs => leadsWith pat (c :: cs) || containsAux pat cs

/-- Python substring membership: strContains s pat models pat in s. -/
def strContains (s pat : String) : Bool := containsAux pat.data s.data

/-- Numeric value of a list of decimal digit characters. -/
def digitsToNat (ds : List Char) : ℕ :=
  ds.foldl (fun a c => 10 * a + (c.toNat - 48)) 0

/-- Model of Python float(str) restricted to finite decimal notation:
optional surrounding whitespace, optional sign, integer and/or fraction
digits around an optional dot, and an optional decimal exponent. Inputs
outside this grammar yield none, modelling the ValueError raised by
float(); the inf/nan spellings and digit underscores are outside the
model. -/
def pyFloat (s : String) : Option Q :=
  let cs := pyStripL s.data
  let sr : Q × List Char :=
    match cs with
    | '+' :: rest => (qInt 1, rest)
    | '-' :: rest => (qInt (-1), rest)
    | rest => (qInt 1, rest)
  let ip := sr.2.span Char.isDigit
  let fp : List Char × List Char :=
    match ip.2 with
    | '.' :: rest => rest.span Char.isDigit
    | rest => ([], rest)
  if ip.1.isEmpty && fp.1.isEmpty then none
  else
    let mant : Q :=
      addQ (qInt (digitsToNat ip.1 : ℤ))
        ⟨(digitsToNat fp.1 : ℤ), (10 : ℤ) ^ fp.1.length, pow_pos (by norm_num) _⟩
    match fp.2 with
    | [] => some (mulQ sr.1 mant)
    | e :: rest =>
      if e == 'e' || e == 'E' then
        let es : ℤ × List Char :=
          match rest with
          | '+' :: r => (1, r)
          | '-' :: r => (-1, r)
          | r => (1, r)
        let ed := es.2.span Char.isDigit
        if ed.1.isEmpty then none
        else if !ed.2.isEmpty then none
        else some (mulQ (mulQ sr.1 mant) (powTenQ (es.1 * (digitsToNat ed.1 : ℤ))))
      else none

/-- kml_index.normalize_sector: normalize free-text sector values into
the canonical set, falling back to the trimmed original-case input. -/
def normalize_sector (value : String) : String :=
  let s := pyLower (pyStrip value)
  if s == "hsr" || s == "retail" || strContains s "retail" then "Retail"
  else if s == "office" || strContains s "office" then "Office"
  else if strContains s "industrial" || strContains s "logistics" then "Industrial & Logistics"
  else pyStrip value

/-- kml_index.infer_sector_from_filename: classify a zone-definition
file name into a sector, or none when it is not a zone file. -/
def infer_sector_from_filename (filename : String) : Option String :=
  let fn := pyLower filename
  if strContains fn "freguesia" then none
  else if strContains fn "hsr" || strContains fn "retail" then some "Retail"
  else if strContains fn "office" then some "Office"
  else if strContains fn "industrial" || strContains fn "logistics" then some "Industrial & Logistics"
  else none

/-- A parsed vertex: (longitude, latitude). -/
abbrev Pt := Q × Q

/-- Python tuple equality on two parsed vertices (float value equality). -/
def eqPt (p q : Pt) : Bool := eqQ p.1 q.1 && eqQ p.2 q.2

/-- Twice the signed cross product of vectors oa and ob: positive when b
lies counter-clockwise of a around o, zero when o, a, b are collinear. -/
def crossP (o a b : Pt) : Q :=
  subQ (mulQ (subQ a.1 o.1) (subQ b.2 o.2)) (mulQ (subQ a.2 o.2) (subQ b.1 o.1))

/-- Dot product of vectors oa and ob. -/
def dotP (o a b : Pt) : Q :=
  addQ (mulQ (subQ a.1 o.1) (subQ b.1 o.1)) (mulQ (subQ a.2 o.2) (subQ b.2 o.2))

/-- Is p on the closed segment from a to b (collinear and inside the
segment's bounding box). -/
def onSeg (a b p : Pt) : Bool :=
  eqQ (crossP a b p) (qInt 0) &&
  leQ (minQ a.1 b.1) p.1 && leQ p.1 (maxQ a.1 b.1) &&
  leQ (minQ a.2 b.2) p.2 && leQ p.2 (maxQ a.2 b.2)

/-- Do the closed segments ab and cd share at least one point. -/
def segsIntersect (a b c d : Pt) : Bool :=
  let d1 := crossP c d a
  let d2 := crossP c d b
  let d3 := crossP a b c
  let d4 := crossP a b d
  (((ltQ (qInt 0) d1 && ltQ d2 (qInt 0)) || (ltQ d1 (qInt 0) && ltQ (qInt 0) d2)) &&
   ((ltQ (qInt 0) d3 && ltQ d4 (qInt 0)) || (ltQ d3 (qInt 0) && ltQ (qInt 0) d4)))
  || onSeg c d a || onSeg c d b || onSeg a b c || onSeg a b d

/-- The consecutive edges of a closed vertex list. -/
def edges (r : List Pt) : List (Pt × Pt) := r.zip r.tail

/-- Twice the signed (shoelace) area of a closed ring. -/
def signedArea2 (r : List Pt) : Q :=
  (edges r).foldl
    (fun acc e => addQ acc (subQ (mulQ e.1.1 e.2.2) (mulQ e.2.1 e.1.2))) (qInt 0)

/-- Consecutive edges e = (a, b) and f = (b, c) of a ring meet only at
their shared vertex b: they must not be collinear with c folding back
towards a. -/
def adjacentOk (e f : Pt × Pt) : Bool :=
  !(eqQ (crossP e.2 e.1 f.2) (qInt 0) && ltQ (qInt 0) (dotP e.2 e.1 f.2))

/-- Default edge used by positional list access inside ringSimple. -/
def dEdge : Pt × Pt := ((qInt 0, qInt 0), (qInt 0, qInt 0))

/-- Is the closed ring simple: non-adjacent edges never meet and
cyclically adjacent edges meet only in their shared vertex. -/
def ringSimple (r : List Pt) : Bool :=
  let es := edges r
  let n := es.length
  (List.range n).all fun i =>
    (List.range n).all fun j =>
      if i < j then
        if j == i + 1 && (i == 0 && j == n - 1) then
          adjacentOk (es.getD i dEdge) (es.getD j dEdge)
        else if j == i + 1 then adjacentOk (es.getD i dEdge) (es.getD j dEdge)
        else if i == 0 && j == n - 1 then adjacentOk (es.getD j dEdge) (es.getD i dEdge)
        else
          !(segsIntersect (es.getD i dEdge).1 (es.getD i dEdge).2
              (es.getD j dEdge).1 (es.getD j dEdge).2)
      else true

/-- Model of shapely is_empty for a polygon built from a coordinate
list: only the empty coordinate list gives an empty polygon. -/
def ringIsEmpty (r : List Pt) : Bool := r.isEmpty

/-- Model of shapely is_valid for a polygon given by one closed outer
ring: at least four stored vertices, first equals last, simple, and of
non-zero area. -/
def ringIsValid (r : List Pt) : Bool :=
  decide (4 ≤ r.length) &&
  (match r.head?, r.getLast? with
   | some h, some l => eqPt h l
   | _, _ => false) &&
  !(eqQ (signedArea2 r) (qInt 0)) &&
  ringSimple r

/-- Is p on the boundary of the ring (on some edge, vertices included). -/
def onBoundary (r : List Pt) (p : Pt) : Bool :=
  (edges r).any fun e => onSeg e.1 e.2 p

/-- Does the horizontal ray from p towards increasing x cross the edge,
using the standard half-open rule on the y-range. -/
def rayCrossesEdge (p : Pt) (e : Pt × Pt) : Bool :=
  let a := e.1
  let b := e.2
  (ltQ p.2 a.2 != ltQ p.2 b.2) &&
  ltQ p.1 (addQ a.1 (divQ (mulQ (subQ p.2 a.2) (subQ b.1 a.1)) (subQ b.2 a.2)))

/-- Even-odd interior test: the ray from p crosses the ring an odd
number of times. -/
def oddCrossings (r : List Pt) (p : Pt) : Bool :=
  ((edges r).filter (rayCrossesEdge p)).length % 2 == 1

/-- Model of shapely covers for a polygon given by its closed outer
ring: boundary-inclusive point containment (a point on an edge or vertex
counts, otherwise the interior test decides). -/
def ringCovers (r : List Pt) (p : Pt) : Bool := onBoundary r p || oddCrossings r p

/-- Does the axis-aligned bounding box of the ring contain p; this is
the pre-filter an STRtree query performs for a point argument. -/
def bboxContainsPt (r : List Pt) (p : Pt) : Bool :=
  match r with
  | [] => false
  | q :: qs =>
    leQ ((qs.map Prod.fst).foldl minQ q.1) p.1 &&
    leQ p.1 ((qs.map Prod.fst).foldl maxQ q.1) &&
    leQ ((qs.map Prod.snd).foldl minQ q.2) p.2 &&
    leQ p.2 ((qs.map Prod.snd).foldl maxQ q.2)

/-- Python token.split on a comma: split at every comma keeping empty
pieces, as str.split(",") does. -/
def splitCommaAux : List Char → List Char → List String
  | [], acc => [String.mk acc.reverse]
  | c :: cs, acc =>
    if c == ',' then String.mk acc.reverse :: splitCommaAux cs []
    else splitCommaAux cs (c :: acc)

/-- Python token.split(",") on a string. -/
def splitComma (s : String) : List String := splitCommaAux s.data []

/-- Split a character list on runs of whitespace, dropping empty pieces;
together with the stripped input this matches re.split of \s+ followed
by the `if not token: continue` skip in _parse_kml_coordinates. -/
def splitWsAux : List Char → List Char → List String
  | [], acc => if acc.isEmpty then [] else [String.mk acc.reverse]
  | c :: cs, acc =>
    if pyIsSpace c then
      if acc.isEmpty then splitWsAux cs []
      else String.mk acc.reverse :: splitWsAux cs []
    else splitWsAux cs (c :: acc)

/-- Token-by-token parse of a KML coordinate text: tokens with fewer
than two comma-separated parts are skipped; a non-numeric longitude or
latitude field makes float() raise, modelled by none. -/
def parseTokens : List String → Option (List Pt)
  | [] => some []
  | t :: rest =>
    if t == "" then parseTokens rest
    else
      let parts := splitComma t
      if parts.length < 2 then parseTokens rest
      else
        match pyFloat (parts.getD 0 "") with
        | none => none
        | some lon =>
          match pyFloat (parts.getD 1 "") with
          | none => none
          | some lat =>
            match parseTokens rest with
            | none => none
            | some ps => some ((lon, lat) :: ps)

/-- kml_index._parse_kml_coordinates: whitespace-split the stripped
coordinate text and parse each token to a (lon, lat) vertex; none models
the ValueError float() raises on a malformed numeric field. -/
def _parse_kml_coordinates (text : String) : Option (List Pt) :=
  parseTokens (splitWsAux (pyStripL text.data) [])

/-- The ring-closing step of _polygons_from_placemark: when the first
and last parsed vertices differ (as float values), append a copy of the
first vertex. -/
def closeRing (cs : List Pt) : List Pt :=
  match cs.head?, cs.getLast? with
  | some h, some l => if eqPt h l then cs else cs ++ [h]
  | _, _ => cs

/-- A placemark as the extraction code observes it: optional name text,
SimpleData fields as (name attribute, text) pairs, and for each Polygon
element the text of its outer-boundary coordinates element (none when
the element is missing). -/
structure Placemark where
  name : Option String
  simpleData : List (String × String)
  rings : List (Option String)

/-- Per-ring body of _polygons_from_placemark over the coordinate texts
of a placemark's Polygon elements: blank texts are skipped, rings of
fewer than three parsed vertices are skipped, rings are closed, and
polygons that are empty or invalid are skipped. none models a
propagated exception, which arises in two ways exactly as in the
source: float() raising on a malformed numeric field, and the
Polygon/LinearRing constructor raising when the closed ring still has
fewer than four coordinates (a ring of exactly three parsed vertices
whose first and last already coincide, so the closure appends
nothing). -/
def polysFromRings : List (Option String) → Option (List (List Pt))
  | [] => some []
  | coordsEl :: rest =>
    match coordsEl with
    | none => polysFromRings rest
    | some txt =>
      if pyStrip txt == "" then polysFromRings rest
      else
        match _parse_kml_coordinates txt with
        | none => none
        | some coords =>
          if coords.length < 3 then polysFromRings rest
          else
            let ring := closeRing coords
            if ring.length < 4 then none
            else
              if ringIsEmpty ring || !ringIsValid ring then polysFromRings rest
              else
                match polysFromRings rest with
                | none => none
                | some ps => some (ring :: ps)

/-- kml_index._polygons_from_placemark: the list of valid closed outer
rings of the placemark's Polygon elements. -/
def _polygons_from_placemark (pm : Placemark) : Option (List (List Pt)) :=
  polysFromRings pm.rings

/-- Guard under which a Polygon element's coordinate text cannot make
extraction raise: the element is absent, its text is blank, or the text
parses numerically and the parsed ring, if it has three or more
vertices, closes to at least four coordinates (so the polygon
constructor accepts it). -/
def ringTextOk : Option String → Bool
  | none => true
  | some t =>
    pyStrip t == "" ||
    match _parse_kml_coordinates t with
    | none => false
    | some coords => decide (coords.length < 3) || decide (4 ≤ (closeRing coords).length)

/-- kml_index.SpatialIndex in its Shapely 2 reading: the geometry list
the STRtree was bulk-loaded from (tree.geometries, in build order) and
the parallel label list. The Shapely 1 identity-keyed dictionary and its
fallback loop are dead under these semantics and are not modelled. -/
structure SpatialIndex where
  geoms : List (List Pt)
  values : List String

/-- STRtree.query for a point argument: the positions of all geometries
whose bounding box contains the point, in tree order (modelled as
increasing position). -/
def treeQuery (geoms : List (List Pt)) (p : Pt) : List ℕ :=
  (List.range geoms.length).filter fun i => bboxContainsPt (geoms.getD i []) p

/-- The candidate scan of lookup_point: return at the first candidate
whose geometry covers the point, with the label at the same position
when it exists (the source returns None for an out-of-range position). -/
def lookupScan (geoms : List (List Pt)) (vals : List String) (p : Pt) :
    List ℕ → Option String
  | [] => none
  | i :: rest =>
    if ringCovers (geoms.getD i []) p then vals.get? i
    else lookupScan geoms vals p rest

/-- kml_index.lookup_point: build the query point from (lat, lon) as
Point(lon, lat), query the tree, and scan the candidates. -/
def lookup_point (index : SpatialIndex) (lat lon : Q) : Option String :=
  let pt : Pt := (lon, lat)
  lookupScan index.geoms index.values pt (treeQuery index.geoms pt)

/-- Extend the per-sector accumulator (geometry list and label list) for
a key, keeping insertion order, as dict.setdefault(...).extend does on
the two parallel dicts of build_zone_indexes_from_paths. -/
def dictExtend (d : List (String × List (List Pt) × List String)) (k : String)
    (gs : List (List Pt)) (vs : List String) :
    List (String × List (List Pt) × List String) :=
  match d with
  | [] => [(k, gs, vs)]
  | (k1, g1, v1) :: rest =>
    if k1 == k then (k1, g1 ++ gs, v1 ++ vs) :: rest
    else (k1, g1, v1) :: dictExtend rest k gs vs

/-- The placemark loop of build_zone_indexes_from_paths for one file of
sector s: skip placemarks without a usable name or without valid
polygons, otherwise extend the sector's geometries and composite
"sector - zone" labels. -/
def zonePlacemarksAux (s : String) :
    List Placemark → List (String × List (List Pt) × List String) →
    Option (List (String × List (List Pt) × List String))
  | [], acc => some acc
  | pm :: rest, acc =>
    let zoneName := match pm.name with | some t => pyStrip t | none => ""
    if zoneName == "" then zonePlacemarksAux s rest acc
    else
      match _polygons_from_placemark pm with
      | none => none
      | some polys =>
        if polys.isEmpty then zonePlacemarksAux s rest acc
        else
          zonePlacemarksAux s rest
            (dictExtend acc s polys (List.replicate polys.length (s ++ " - " ++ zoneName)))

/-- The file loop of build_zone_indexes_from_paths: classify each file
name, skipping unclassified files. -/
def zoneFilesAux :
    List (String × List Placemark) → List (String × List (List Pt) × List String) →
    Option (List (String × List (List Pt) × List String))
  | [], acc => some acc
  | (filename, pms) :: rest, acc =>
    match infer_sector_from_filename filename with
    | none => zoneFilesAux rest acc
    | some s =>
      match zonePlacemarksAux s pms acc with
      | none => none
      | some acc2 => zoneFilesAux rest acc2

/-- kml_index.build_zone_indexes_from_paths, over files given as (base
name, parsed placemarks): one SpatialIndex per inferred sector, in
insertion order; none models a propagated parse exception. -/
def build_zone_indexes_from_paths (files : List (String × List Placemark)) :
    Option (List (String × SpatialIndex)) :=
  (zoneFilesAux files []).map fun acc =>
    acc.map fun e => (e.1, SpatialIndex.mk e.2.1 e.2.2)

/-- The placemark loop of build_freguesia_index_from_path: take the
stripped text of the first SimpleData field named "Freguesia", skip the
placemark when it is missing or empty, and append each of the
placemark's polygons with that parish name. -/
def fregAux : List Placemark → List (List Pt) → List String →
    Option (List (List Pt) × List String)
  | [], gs, vs => some (gs, vs)
  | pm :: rest, gs, vs =>
    let fregName :=
      match pm.simpleData.find? (fun sd => sd.1 == "Freguesia") with
      | some sd => pyStrip sd.2
      | none => ""
    if fregName == "" then fregAux rest gs vs
    else
      match _polygons_from_placemark pm with
      | none => none
      | some polys =>
        fregAux rest (gs ++ polys) (vs ++ List.replicate polys.length fregName)

/-- kml_index.build_freguesia_index_from_path, over the parsed placemark
stream of the parish file. -/
def build_freguesia_index_from_path (pms : List Placemark) : Option SpatialIndex :=
  (fregAux pms [] []).map fun gv => SpatialIndex.mk gv.1 gv.2

/-- ZONE_INDEXES.get(sector): look a sector key up among the built zone
indexes. -/
def lookupAssoc (d : List (String × SpatialIndex)) (k : String) : Option SpatialIndex :=
  match d.find? (fun e => e.1 == k) with
  | some e => some e.2
  | none => none

/-- One input row of the enrich endpoint as the loop body reads it: the
raw sector text and the raw latitude and longitude cell texts. -/
structure Row where
  sector : String
  lat : String
  lon : String

/-- The per-row body of app.enrich: normalize the sector, parse the
coordinates (an unparseable value yields absent Zone and Freguesia for
the row), resolve Zone only when an index exists for the normalized
sector, and always resolve Freguesia. -/
def enrichRow (zoneIdxs : List (String × SpatialIndex)) (fregIdx : SpatialIndex)
    (r : Row) : Option String × Option String :=
  let sector := normalize_sector r.sector
  match pyFloat r.lat with
  | none => (none, none)
  | some lat =>
    match pyFloat r.lon with
    | none => (none, none)
    | some lon =>
      let zoneVal :=
        match lookupAssoc zoneIdxs sector with
        | some idx => lookup_point idx lat lon
        | none => none
      (zoneVal, lookup_point fregIdx lat lon)

/-- The row loop of app.enrich: each row is processed independently. -/
def enrich (zoneIdxs : List (String × SpatialIndex)) (fregIdx : SpatialIndex)
    (rows : List Row) : List (Option String × Option String) :=
  rows.map (enrichRow zoneIdxs fregIdx)

/-- The single zone file of the spec's first concrete scenario: a
triangular polygon [(0,0),(2,0),(1,2)] in a placemark named "A" inside a
retail-classified file. -/
def triFile : String × List Placemark :=
  ("Retail_zones.kml", [⟨some "A", [], [some "0,0 2,0 1,2"]⟩])

/-- The open triangular ring of the spec's first concrete scenario. -/
def tri3 : List Pt := [(qInt 0, qInt 0), (qInt 2, qInt 0), (qInt 1, qInt 2)]

/-- The closed triangular ring the parser produces for triFile. -/
def triRing : List Pt := tri3 ++ [(qInt 0, qInt 0)]

/-- The spatial index built from triFile. -/
def triIdx : SpatialIndex := ⟨[triRing], ["Retail - A"]⟩

/-- An index over no polygons at all. -/
def emptyIdx : SpatialIndex := ⟨[], []⟩


/-! Order lemmas for the fraction values; the positive-denominator
invariant makes cross-multiplied comparison a genuine linear order. -/

theorem leQ_refl (a : Q) : leQ a a = true := by
  simp [leQ]

theorem eqQ_refl (a : Q) : eqQ a a = true := by
  simp [eqQ]

theorem eqPt_refl (p : Pt) : eqPt p p = true := by
  simp [eqPt, eqQ_refl]

theorem leQ_trans {a b c : Q} (h1 : leQ a b = true) (h2 : leQ b c = true) :
    leQ a c = true := by
  simp only [leQ, decide_eq_true_eq] at h1 h2 ⊢
  have h3 : a.num * c.den * b.den ≤ c.num * a.den * b.den := by
    nlinarith [mul_le_mul_of_nonneg_right h1 c.pos.le,
      mul_le_mul_of_nonneg_right h2 a.pos.le]
  exact le_of_mul_le_mul_right h3 b.pos

theorem leQ_total {a b : Q} (h : leQ a b = false) : leQ b a = true := by
  simp only [leQ, decide_eq_false_iff_not, decide_eq_true_eq, not_le] at h ⊢
  exact h.le

theorem minQ_le_left (a b : Q) : leQ (minQ a b) a = true := by
  unfold minQ
  by_cases h : leQ a b = true
  · simp [h, leQ_refl]
  · simp only [Bool.not_eq_true] at h
    simp [h, leQ_total h]

theorem minQ_le_right (a b : Q) : leQ (minQ a b) b = true := by
  unfold minQ
  by_cases h : leQ a b = true
  · simp [h]
  · simp only [Bool.not_eq_true] at h
    simp [h, leQ_refl]

theorem left_le_maxQ (a b : Q) : leQ a (maxQ a b) = true := by
  unfold maxQ
  by_cases h : leQ a b = true
  · simp [h]
  · simp only [Bool.not_eq_true] at h
    simp [h, leQ_refl]

theorem right_le_maxQ (a b : Q) : leQ b (maxQ a b) = true := by
  unfold maxQ
  by_cases h : leQ a b = true
  · simp [h, leQ_refl]
  · simp only [Bool.not_eq_true] at h
    simp [h, leQ_total h]

theorem minQ_cases (a b : Q) : minQ a b = a ∨ minQ a b = b := by
  unfold minQ
  by_cases h : leQ a b = true <;> simp [h]

theorem maxQ_cases (a b : Q) : maxQ a b = a ∨ maxQ a b = b := by
  unfold maxQ
  by_cases h : leQ a b = true <;> simp [h]

theorem foldl_minQ_le_init (xs : List Q) (a : Q) : leQ (xs.foldl minQ a) a = true := by
  induction xs generalizing a with
  | nil => exact leQ_refl a
  | cons x xs ih =>
    simp only [List.foldl_cons]
    exact leQ_trans (ih (minQ a x)) (minQ_le_left a x)

theorem foldl_minQ_le_mem {xs : List Q} {x : Q} (a : Q) (hx : x ∈ xs) :
    leQ (xs.foldl minQ a) x = true := by
  induction xs generalizing a with
  | nil => cases hx
  | cons y ys ih =>
    simp only [List.foldl_cons]
    rcases List.mem_cons.mp hx with h | h
    · subst h
      exact leQ_trans (foldl_minQ_le_init ys (minQ a x)) (minQ_le_right a x)
    · exact ih (minQ a y) h

theorem init_le_foldl_maxQ (xs : List Q) (a : Q) : leQ a (xs.foldl maxQ a) = true := by
  induction xs generalizing a with
  | nil => exact leQ_refl a
  | cons x xs ih =>
    simp only [List.foldl_cons]
    exact leQ_trans (left_le_maxQ a x) (ih (maxQ a x))

theorem mem_le_foldl_maxQ {xs : List Q} {x : Q} (a : Q) (hx : x ∈ xs) :
    leQ x (xs.foldl maxQ a) = true := by
  induction xs generalizing a with
  | nil => cases hx
  | cons y ys ih =>
    simp only [List.foldl_cons]
    rcases List.mem_cons.mp hx with h | h
    · subst h
      exact leQ_trans (right_le_maxQ a x) (init_le_foldl_maxQ ys (maxQ a x))
    · exact ih (maxQ a y) h

theorem foldl_minQ_map_le {f : Pt → Q} {q : Pt} {qs : List Pt} {z : Pt}
    (hz : z ∈ q :: qs) : leQ ((qs.map f).foldl minQ (f q)) (f z) = true := by
  rcases List.mem_cons.mp hz with h | h
  · subst h
    exact foldl_minQ_le_init _ _
  · exact foldl_minQ_le_mem _ (List.mem_map_of_mem f h)

theorem le_foldl_maxQ_map {f : Pt → Q} {q : Pt} {qs : List Pt} {z : Pt}
    (hz : z ∈ q :: qs) : leQ (f z) ((qs.map f).foldl maxQ (f q)) = true := by
  rcases List.mem_cons.mp hz with h | h
  · subst h
    exact init_le_foldl_maxQ _ _
  · exact mem_le_foldl_maxQ _ (List.mem_map_of_mem f h)

/-! Lemmas about whitespace trimming, used for idempotence of
normalization. -/

theorem dropWhile_dropWhile {p : Char → Bool} (l : List Char) :
    (l.dropWhile p).dropWhile p = l.dropWhile p := by
  induction l with
  | nil => rfl
  | cons c cs ih =>
    by_cases h : p c
    · simp [List.dropWhile_cons, h, ih]
    · simp [List.dropWhile_cons, h]

theorem head?_dropWhile_not {p : Char → Bool} (l : List Char) {a : Char}
    (h : (l.dropWhile p).head? = some a) : p a = false := by
  induction l with
  | nil => simp at h
  | cons c cs ih =>
    by_cases hc : p c
    · rw [List.dropWhile_cons] at h
      simp only [hc, if_true] at h
      exact ih h
    · rw [List.dropWhile_cons] at h
      simp only [hc, if_false, Bool.false_eq_true, List.head?_cons, Option.some.injEq] at h
      subst h
      simp [hc]

theorem getLast?_dropWhile {p : Char → Bool} (l : List Char)
    (h : l.dropWhile p ≠ []) : (l.dropWhile p).getLast? = l.getLast? := by
  induction l with
  | nil => simp at h
  | cons c cs ih =>
    by_cases hc : p c
    · rw [List.dropWhile_cons] at h ⊢
      simp only [hc, if_true] at h ⊢
      rw [ih h]
      cases cs with
      | nil => simp at h
      | cons d ds => simp [List.getLast?_cons_cons]
    · rw [List.dropWhile_cons]
      simp [hc]

theorem dropWhile_of_head_not {p : Char → Bool} {l : List Char} {a : Char}
    (hh : l.head? = some a) (ha : p a = false) : l.dropWhile p = l := by
  cases l with
  | nil => simp at hh
  | cons c cs =>
    simp only [List.head?_cons, Option.some.injEq] at hh
    subst hh
    simp [List.dropWhile_cons, ha]

theorem pyStripL_idem (l : List Char) : pyStripL (pyStripL l) = pyStripL l := by
  unfold pyStripL
  have h1 : (((l.dropWhile pyIsSpace).reverse.dropWhile pyIsSpace).reverse).dropWhile pyIsSpace
      = ((l.dropWhile pyIsSpace).reverse.dropWhile pyIsSpace).reverse := by
    cases hwr : (((l.dropWhile pyIsSpace).reverse.dropWhile pyIsSpace).reverse).head? with
    | none =>
      have : ((l.dropWhile pyIsSpace).reverse.dropWhile pyIsSpace).reverse = [] := by
        cases hx : ((l.dropWhile pyIsSpace).reverse.dropWhile pyIsSpace).reverse with
        | nil => rfl
        | cons y ys => rw [hx] at hwr; simp at hwr
      rw [this]
      rfl
    | some a =>
      refine dropWhile_of_head_not hwr ?_
      have hw : (l.dropWhile pyIsSpace).reverse.dropWhile pyIsSpace ≠ [] := by
        intro hcon
        rw [hcon] at hwr
        simp at hwr
      rw [List.head?_reverse] at hwr
      rw [getLast?_dropWhile _ hw, List.getLast?_reverse] at hwr
      exact head?_dropWhile_not l hwr
  rw [h1, List.reverse_reverse, dropWhile_dropWhile]

theorem pyStrip_idem (s : String) : pyStrip (pyStrip s) = pyStrip s := by
  show String.mk (pyStripL (pyStripL s.data)) = String.mk (pyStripL s.data)
  rw [pyStripL_idem]

/-! Lemmas about the boundary test, the bounding-box pre-filter and the
candidate scan of lookup_point. -/

theorem mem_of_mem_edges {r : List Pt} {e : Pt × Pt} (he : e ∈ edges r) :
    e.1 ∈ r ∧ e.2 ∈ r := by
  unfold edges at he
  obtain ⟨h1, h2⟩ := List.of_mem_zip (by exact he)
  exact ⟨h1, List.mem_of_mem_tail h2⟩

theorem onBoundary_bbox {r : List Pt} {p : Pt} (h : onBoundary r p = true) :
    bboxContainsPt r p = true := by
  unfold onBoundary at h
  rw [List.any_eq_true] at h
  obtain ⟨e, he, hseg⟩ := h
  obtain ⟨h1e, h2e⟩ := mem_of_mem_edges he
  simp only [onSeg, Bool.and_eq_true] at hseg
  obtain ⟨⟨⟨⟨_, hx1⟩, hx2⟩, hy1⟩, hy2⟩ := hseg
  cases r with
  | nil => cases h1e
  | cons q qs =>
    unfold bboxContainsPt
    simp only [Bool.and_eq_true]
    refine ⟨⟨⟨?_, ?_⟩, ?_⟩, ?_⟩
    · have ha := foldl_minQ_map_le (f := Prod.fst) h1e
      have hb := foldl_minQ_map_le (f := Prod.fst) h2e
      rcases minQ_cases e.1.1 e.2.1 with hm | hm <;> rw [hm] at hx1
      · exact leQ_trans ha hx1
      · exact leQ_trans hb hx1
    · have ha := le_foldl_maxQ_map (f := Prod.fst) h1e
      have hb := le_foldl_maxQ_map (f := Prod.fst) h2e
      rcases maxQ_cases e.1.1 e.2.1 with hm | hm <;> rw [hm] at hx2
      · exact leQ_trans hx2 ha
      · exact leQ_trans hx2 hb
    · have ha := foldl_minQ_map_le (f := Prod.snd) h1e
      have hb := foldl_minQ_map_le (f := Prod.snd) h2e
      rcases minQ_cases e.1.2 e.2.2 with hm | hm <;> rw [hm] at hy1
      · exact leQ_trans ha hy1
      · exact leQ_trans hb hy1
    · have ha := le_foldl_maxQ_map (f := Prod.snd) h1e
      have hb := le_foldl_maxQ_map (f := Prod.snd) h2e
      rcases maxQ_cases e.1.2 e.2.2 with hm | hm <;> rw [hm] at hy2
      · exact leQ_trans hy2 ha
      · exact leQ_trans hy2 hb

theorem getD_mem_of_lt {α : Type} {l : List α} {i : ℕ} {d : α}
    (h : i < l.length) : l.getD i d ∈ l := by
  induction l generalizing i with
  | nil => simp at h
  | cons x xs ih =>
    cases i with
    | zero => simp
    | succ n =>
      simp only [List.getD_cons_succ]
      exact List.mem_cons_of_mem x (ih (by simpa using h))

theorem treeQuery_mem_lt {geoms : List (List Pt)} {p : Pt} {i : ℕ}
    (h : i ∈ treeQuery geoms p) : i < geoms.length := by
  unfold treeQuery at h
  exact List.mem_range.mp (List.mem_filter.mp h).1

theorem lookupScan_none {geoms : List (List Pt)} {vals : List String} {p : Pt} :
    ∀ {cands : List ℕ},
      (∀ i ∈ cands, ringCovers (geoms.getD i []) p = false) →
      lookupScan geoms vals p cands = none := by
  intro cands
  induction cands with
  | nil => intro _; rfl
  | cons i rest ih =>
    intro h
    unfold lookupScan
    rw [h i (List.mem_cons_self i rest)]
    simp only [Bool.false_eq_true, if_false]
    exact ih fun j hj => h j (List.mem_cons_of_mem i hj)

theorem lookupScan_some {geoms : List (List Pt)} {vals : List String} {p : Pt} :
    ∀ {cands : List ℕ} {v : String}, lookupScan geoms vals p cands = some v →
      ∃ i, i ∈ cands ∧ ringCovers (geoms.getD i []) p = true ∧ vals.get? i = some v := by
  intro cands
  induction cands with
  | nil => intro v h; cases h
  | cons i rest ih =>
    intro v h
    unfold lookupScan at h
    by_cases hc : ringCovers (geoms.getD i []) p = true
    · rw [hc] at h
      simp only [if_true] at h
      exact ⟨i, List.mem_cons_self i rest, hc, h⟩
    · simp only [Bool.not_eq_true] at hc
      rw [hc] at h
      simp only [Bool.false_eq_true, if_false] at h
      obtain ⟨j, hj, hcov, hval⟩ := ih h
      exact ⟨j, List.mem_cons_of_mem i hj, hcov, hval⟩

theorem lookupScan_isSome {geoms : List (List Pt)} {vals : List String} {p : Pt}
    (hlen : vals.length = geoms.length) :
    ∀ {cands : List ℕ} {i : ℕ}, (∀ j ∈ cands, j < geoms.length) →
      i ∈ cands → ringCovers (geoms.getD i []) p = true →
      ∃ v, lookupScan geoms vals p cands = some v := by
  intro cands
  induction cands with
  | nil => intro i _ hi; cases hi
  | cons j rest ih =>
    intro i hbound hi hcov
    unfold lookupScan
    by_cases hc : ringCovers (geoms.getD j []) p = true
    · rw [hc]
      simp only [if_true]
      have hj : j < vals.length := hlen ▸ hbound j (List.mem_cons_self j rest)
      exact ⟨vals.get ⟨j, hj⟩, List.get?_eq_get hj⟩
    · simp only [Bool.not_eq_true] at hc
      rw [hc]
      simp only [Bool.false_eq_true, if_false]
      have hi2 : i ∈ rest := by
        rcases List.mem_cons.mp hi with h | h
        · subst h
          rw [hcov] at hc
          cases hc
        · exact h
      exact ih (fun k hk => hbound k (List.mem_cons_of_mem j hk)) hi2 hcov

theorem lookup_single_boundary (g : List Pt) (v : String) (p : Pt)
    (h : onBoundary g p = true) :
    lookup_point ⟨[g], [v]⟩ p.2 p.1 = some v := by
  have hbb : bboxContainsPt g p = true := onBoundary_bbox h
  have hcov : ringCovers g p = true := by
    unfold ringCovers
    rw [h]
    rfl
  simp [lookup_point, treeQuery, lookupScan, List.filter, hbb, hcov]

/-- C1: lookup_point uses boundary-inclusive containment. For an index
holding one polygon with one label, a point on the polygon's boundary
(edge or vertex) resolves to that label; and on the index built from the
single triangular polygon [(0,0),(2,0),(1,2)] labelled "Retail - A", the
edge point (1,0) and the interior point (1,1) both resolve to
"Retail - A" while the outside point (5,5) gives no match. -/
theorem c1_lookup_point_boundary_inclusive :
    (∀ (r : List Pt) (p : Pt), onBoundary r p = true → ringCovers r p = true) ∧
    (∀ (g : List Pt) (v : String) (p : Pt), onBoundary g p = true →
        lookup_point ⟨[g], [v]⟩ p.2 p.1 = some v) ∧
    build_zone_indexes_from_paths [triFile] = some [("Retail", triIdx)] ∧
    lookup_point triIdx (qInt 0) (qInt 1) = some "Retail - A" ∧
    lookup_point triIdx (qInt 1) (qInt 1) = some "Retail - A" ∧
    lookup_point triIdx (qInt 5) (qInt 5) = none :=
  ⟨fun r p h => by unfold ringCovers; rw [h]; rfl,
   fun g v p h => lookup_single_boundary g v p h, by rfl, by decide, by decide, by decide⟩

/-- Witness for C1: the general boundary statement applied to the closed
triangle and the edge point (1,0). -/
theorem c1_witness :
    lookup_point ⟨[triRing], ["Z"]⟩ (qInt 0) (qInt 1) = some "Z" :=
  c1_lookup_point_boundary_inclusive.2.1 triRing "Z" (qInt 1, qInt 0) (by decide)

/-- C4: lookup_point returns none whenever no polygon of the index
covers the point (in particular when the point is outside every polygon,
and for the index built over an empty polygon list, which the freguesia
builder produces from an empty placemark stream). -/
theorem c4_lookup_point_no_cover_none :
    (∀ (idx : SpatialIndex) (lat lon : Q),
        (∀ g ∈ idx.geoms, ringCovers g (lon, lat) = false) →
        lookup_point idx lat lon = none) ∧
    (∀ lat lon : Q, lookup_point emptyIdx lat lon = none) ∧
    build_freguesia_index_from_path [] = some emptyIdx := by
  refine ⟨?_, fun lat lon => rfl, rfl⟩
  intro idx lat lon h
  unfold lookup_point
  refine lookupScan_none ?_
  intro i hi
  exact h _ (getD_mem_of_lt (treeQuery_mem_lt hi))

/-- Witness for C4: the triangle index at the outside point (9,9). -/
theorem c4_witness : lookup_point triIdx (qInt 9) (qInt 9) = none :=
  c4_lookup_point_no_cover_none.1 triIdx (qInt 9) (qInt 9) (by decide)

/-- C6: a parsed ring whose first and last vertices differ is closed by
appending the first vertex, which is exactly the ring that results from
the already-closed vertex list, so both produce the same covers result
at every test point. -/
theorem c6_ring_closure_roundtrip :
    ∀ (cs : List Pt) (h l : Pt), cs.head? = some h → cs.getLast? = some l →
      eqPt h l = false →
      closeRing cs = cs ++ [h] ∧ closeRing (cs ++ [h]) = cs ++ [h] ∧
      ∀ p : Pt, ringCovers (closeRing cs) p = ringCovers (closeRing (cs ++ [h])) p := by
  intro cs h l hh hl hne
  have h1 : closeRing cs = cs ++ [h] := by
    unfold closeRing
    rw [hh, hl]
    simp [hne]
  have h2 : closeRing (cs ++ [h]) = cs ++ [h] := by
    unfold closeRing
    cases cs with
    | nil => cases hh
    | cons c t =>
      simp only [List.head?_cons, Option.some.injEq] at hh
      subst hh
      rw [List.getLast?_concat]
      simp only [List.cons_append, List.head?_cons]
      rw [eqPt_refl]
      rfl
  exact ⟨h1, h2, fun p => by rw [h1, h2]⟩

/-- Witness for C6: the open triangle [(0,0),(2,0),(1,2)], with the
containment comparison instantiated at the interior point (1,1). -/
theorem c6_witness :
    closeRing tri3 = tri3 ++ [(qInt 0, qInt 0)] ∧
    closeRing (tri3 ++ [(qInt 0, qInt 0)]) = tri3 ++ [(qInt 0, qInt 0)] ∧
    ringCovers (closeRing tri3) (qInt 1, qInt 1) =
      ringCovers (closeRing (tri3 ++ [(qInt 0, qInt 0)])) (qInt 1, qInt 1) := by
  obtain ⟨h1, h2, h3⟩ :=
    c6_ring_closure_roundtrip tri3 (qInt 0, qInt 0) (qInt 1, qInt 2)
      (by decide) (by decide) (by decide)
  exact ⟨h1, h2, h3 (qInt 1, qInt 1)⟩

theorem polysFromRings_total :
    ∀ rs : List (Option String), rs.all ringTextOk = true →
      ∃ polys, polysFromRings rs = some polys ∧
        ∀ r ∈ polys, ringIsEmpty r = false ∧ ringIsValid r = true := by
  intro rs
  induction rs with
  | nil =>
    intro _
    exact ⟨[], rfl, by intro r hr; cases hr⟩
  | cons o rest ih =>
    intro hall
    rw [List.all_cons, Bool.and_eq_true] at hall
    obtain ⟨ho, hrest⟩ := hall
    obtain ⟨ps, hps, hv⟩ := ih hrest
    cases o with
    | none =>
      exact ⟨ps, by unfold polysFromRings; exact hps, hv⟩
    | some txt =>
      show ∃ polys,
        (if (pyStrip txt == "") = true then polysFromRings rest
         else
          match _parse_kml_coordinates txt with
          | none => none
          | some coords =>
            if coords.length < 3 then polysFromRings rest
            else
              if (closeRing coords).length < 4 then none
              else
                if ringIsEmpty (closeRing coords) || !ringIsValid (closeRing coords) then
                  polysFromRings rest
                else
                  match polysFromRings rest with
                  | none => none
                  | some ps => some (closeRing coords :: ps)) = some polys ∧
        ∀ r ∈ polys, ringIsEmpty r = false ∧ ringIsValid r = true
      by_cases hblank : (pyStrip txt == "") = true
      · rw [if_pos hblank]
        exact ⟨ps, hps, hv⟩
      · rw [if_neg hblank]
        have hguard : (match _parse_kml_coordinates txt with
            | none => false
            | some coords =>
              decide (coords.length < 3) ||
                decide (4 ≤ (closeRing coords).length)) = true := by
          unfold ringTextOk at ho
          rcases Bool.or_eq_true_iff.mp ho with h | h
          · exact absurd h hblank
          · exact h
        cases hcoords : _parse_kml_coordinates txt with
        | none =>
          rw [hcoords] at hguard
          exact Bool.noConfusion hguard
        | some coords =>
          rw [hcoords] at hguard
          have hguard2 : (decide (coords.length < 3) ||
              decide (4 ≤ (closeRing coords).length)) = true := hguard
          show ∃ polys,
            (if coords.length < 3 then polysFromRings rest
             else
              if (closeRing coords).length < 4 then none
              else
                if ringIsEmpty (closeRing coords) || !ringIsValid (closeRing coords) then
                  polysFromRings rest
                else
                  match polysFromRings rest with
                  | none => none
                  | some ps => some (closeRing coords :: ps)) = some polys ∧
            ∀ r ∈ polys, ringIsEmpty r = false ∧ ringIsValid r = true
          by_cases hlen : coords.length < 3
          · rw [if_pos hlen]
            exact ⟨ps, hps, hv⟩
          · rw [if_neg hlen]
            have h4 : ¬ (closeRing coords).length < 4 := by
              rcases Bool.or_eq_true_iff.mp hguard2 with h | h
              · exact absurd (of_decide_eq_true h) hlen
              · exact Nat.not_lt.mpr (of_decide_eq_true h)
            rw [if_neg h4]
            by_cases hskip :
                (ringIsEmpty (closeRing coords) || !ringIsValid (closeRing coords)) = true
            · rw [if_pos hskip]
              exact ⟨ps, hps, hv⟩
            · rw [if_neg hskip]
              rw [hps]
              refine ⟨closeRing coords :: ps, rfl, ?_⟩
              intro r hr
              rcases List.mem_cons.mp hr with h | h
              · subst h
                have hsf : (ringIsEmpty (closeRing coords) ||
                    !ringIsValid (closeRing coords)) = false := by
                  simpa using hskip
                rw [Bool.or_eq_false_iff] at hsf
                obtain ⟨he, hnv⟩ := hsf
                refine ⟨he, ?_⟩
                simpa using hnv
              · exact hv r h

/-- C3 counterexample: extraction is not total over every coordinate
text. A token whose first two comma-separated fields are not numeric
makes float() raise, and the exception propagates out of
_polygons_from_placemark (modelled by none) instead of the ring being
dropped. -/
theorem c3_counterexample :
    _polygons_from_placemark ⟨some "X", [], [some "a,b c,d e,f"]⟩ = none := by rfl

/-- C3 (amended): extraction raises no error provided every present,
non-blank coordinate text of the placemark parses numerically and no
parsed ring of three or more vertices closes to fewer than four
coordinates; under that guard it returns a list of polygons in which
rings of fewer than three parsed vertices and geometrically empty or
invalid polygons have been dropped silently, so every returned polygon
is non-empty and valid. Outside the guard extraction raises: float()
raises on a non-numeric field, and the polygon constructor raises on a
three-vertex already-closed ring such as "0,0 1,1 0,0". -/
theorem c3_polygons_from_placemark_guarded_total :
    (∀ pm : Placemark, pm.rings.all ringTextOk = true →
      _polygons_from_placemark pm ≠ none ∧
      ∀ polys, _polygons_from_placemark pm = some polys →
        ∀ r ∈ polys, ringIsEmpty r = false ∧ ringIsValid r = true) ∧
    _polygons_from_placemark ⟨some "X", [], [some "0,0 1,1 0,0"]⟩ = none := by
  refine ⟨?_, by rfl⟩
  intro pm hall
  obtain ⟨polys, hp, hv⟩ := polysFromRings_total pm.rings hall
  constructor
  · intro hcon
    rw [show _polygons_from_placemark pm = polysFromRings pm.rings from rfl, hp] at hcon
    cases hcon
  · intro polys2 h2
    rw [show _polygons_from_placemark pm = polysFromRings pm.rings from rfl, hp] at h2
    injection h2 with h2
    subst h2
    exact hv

/-- Witness for C3: the triangle placemark satisfies the guard, so
extraction succeeds on it. -/
theorem c3_witness :
    _polygons_from_placemark ⟨some "A", [], [some "0,0 2,0 1,2"]⟩ ≠ none :=
  (c3_polygons_from_placemark_guarded_total.1
    ⟨some "A", [], [some "0,0 2,0 1,2"]⟩ (by decide)).1

/-- C2 counterexample: normalize_sector does not apply the same
substring rule as infer_sector_from_filename for the "hsr" keyword. The
input "hsr zone" contains "hsr" as a substring (and the classifier maps
it to "Retail"), yet normalize_sector falls through to the trimmed
original text because it tests "hsr" by equality only. -/
theorem c2_counterexample :
    strContains (pyLower (pyStrip "hsr zone")) "hsr" = true ∧
    infer_sector_from_filename "hsr zone" = some "Retail" ∧
    normalize_sector "hsr zone" = "hsr zone" ∧
    normalize_sector "hsr zone" ≠ "Retail" := by decide

/-- C2 (amended): normalize_sector applies the keyword rule in the same
priority order as infer_sector_from_filename, except that "hsr" is
matched by whole-string equality of the trimmed lower-cased input rather
than by substring: "Retail" when the trimmed lower-cased input equals
"hsr" or "retail" or contains "retail"; else "Office" when it contains
"office"; else "Industrial & Logistics" when it contains "industrial" or
"logistics"; else the trimmed original-case input unchanged. -/
theorem c2_normalize_sector_keyword_rule :
    ∀ (v s : String), s = pyLower (pyStrip v) →
      ((s == "hsr" || s == "retail" || strContains s "retail") = true →
        normalize_sector v = "Retail") ∧
      ((s == "hsr" || s == "retail" || strContains s "retail") = false →
        (s == "office" || strContains s "office") = true →
        normalize_sector v = "Office") ∧
      ((s == "hsr" || s == "retail" || strContains s "retail") = false →
        (s == "office" || strContains s "office") = false →
        (strContains s "industrial" || strContains s "logistics") = true →
        normalize_sector v = "Industrial & Logistics") ∧
      ((s == "hsr" || s == "retail" || strContains s "retail") = false →
        (s == "office" || strContains s "office") = false →
        (strContains s "industrial" || strContains s "logistics") = false →
        normalize_sector v = pyStrip v) := by
  intro v s hs
  subst hs
  refine ⟨?_, ?_, ?_, ?_⟩
  · intro h1
    simp [normalize_sector, h1]
  · intro h1 h2
    simp [normalize_sector, h1, h2]
  · intro h1 h2 h3
    simp [normalize_sector, h1, h2, h3]
  · intro h1 h2 h3
    simp [normalize_sector, h1, h2, h3]

/-- Witness for C2: the amended rule applied to " Retail Park ". -/
theorem c2_witness : normalize_sector " Retail Park " = "Retail" :=
  (c2_normalize_sector_keyword_rule " Retail Park "
    (pyLower (pyStrip " Retail Park ")) rfl).1 (by decide)

/-- C5: infer_sector_from_filename lower-cases the name, excludes any
name containing "freguesia", and otherwise resolves the keywords in the
fixed priority order hsr/retail, office, industrial/logistics, with None
for unrecognized names; "HSR_Zones.kml" classifies to "Retail" and
"Freguesias_2023.kml" to None. -/
theorem c5_infer_sector_from_filename_priority :
    (∀ (fn f : String), f = pyLower fn →
      (strContains f "freguesia" = true → infer_sector_from_filename fn = none) ∧
      (strContains f "freguesia" = false →
        (strContains f "hsr" || strContains f "retail") = true →
        infer_sector_from_filename fn = some "Retail") ∧
      (strContains f "freguesia" = false →
        (strContains f "hsr" || strContains f "retail") = false →
        strContains f "office" = true →
        infer_sector_from_filename fn = some "Office") ∧
      (strContains f "freguesia" = false →
        (strContains f "hsr" || strContains f "retail") = false →
        strContains f "office" = false →
        (strContains f "industrial" || strContains f "logistics") = true →
        infer_sector_from_filename fn = some "Industrial & Logistics") ∧
      (strContains f "freguesia" = false →
        (strContains f "hsr" || strContains f "retail") = false →
        strContains f "office" = false →
        (strContains f "industrial" || strContains f "logistics") = false →
        infer_sector_from_filename fn = none)) ∧
    infer_sector_from_filename "HSR_Zones.kml" = some "Retail" ∧
    infer_sector_from_filename "Freguesias_2023.kml" = none := by
  refine ⟨?_, by decide, by decide⟩
  intro fn f hf
  subst hf
  refine ⟨?_, ?_, ?_, ?_, ?_⟩
  · intro h1
    simp [infer_sector_from_filename, h1]
  · intro h1 h2
    simp [infer_sector_from_filename, h1, h2]
  · intro h1 h2 h3
    simp [infer_sector_from_filename, h1, h2, h3]
  · intro h1 h2 h3 h4
    simp [infer_sector_from_filename, h1, h2, h3, h4]
  · intro h1 h2 h3 h4
    simp [infer_sector_from_filename, h1, h2, h3, h4]

/-- Witness for C5: the priority rule applied to a logistics file
name. -/
theorem c5_witness :
    infer_sector_from_filename "Warehouse_logistics.kml" = some "Industrial & Logistics" :=
  ((c5_infer_sector_from_filename_priority.1 "Warehouse_logistics.kml"
    (pyLower "Warehouse_logistics.kml") rfl).2.2.2.1
    (by decide) (by decide) (by decide) (by decide))

/-- C7: for a row whose coordinates parse, enrichRow resolves the Zone
output against the index registered for the row's normalized sector when
one exists and leaves it absent otherwise, and unconditionally resolves
the Freguesia output against the parish index. -/
theorem c7_enrich_row_routing :
    ∀ (zoneIdxs : List (String × SpatialIndex)) (fregIdx : SpatialIndex) (r : Row)
      (lat lon : Q), pyFloat r.lat = some lat → pyFloat r.lon = some lon →
      (lookupAssoc zoneIdxs (normalize_sector r.sector) = none →
        enrichRow zoneIdxs fregIdx r = (none, lookup_point fregIdx lat lon)) ∧
      (∀ idx, lookupAssoc zoneIdxs (normalize_sector r.sector) = some idx →
        enrichRow zoneIdxs fregIdx r =
          (lookup_point idx lat lon, lookup_point fregIdx lat lon)) := by
  intro zoneIdxs fregIdx r lat lon hlat hlon
  constructor
  · intro hnone
    simp only [enrichRow, hlat, hlon, hnone]
  · intro idx hsome
    simp only [enrichRow, hlat, hlon, hsome]

/-- Witness for C7: a row with sector "Retail" against an empty registry
and the empty parish index. -/
theorem c7_witness :
    enrichRow [] emptyIdx ⟨"Retail", "1", "2"⟩ =
      (none, lookup_point emptyIdx (qInt 1) (qInt 2)) :=
  (c7_enrich_row_routing [] emptyIdx ⟨"Retail", "1", "2"⟩ (qInt 1) (qInt 2)
    rfl rfl).1 rfl

/-- C8: enrichment is per-row: the output list has one entry per row,
each entry is a function of its own row only, and a row whose latitude
or longitude fails to parse yields absent Zone and absent Freguesia for
that row, leaving every other row's entry unchanged. -/
theorem c8_enrich_per_row_failure :
    ∀ (zoneIdxs : List (String × SpatialIndex)) (fregIdx : SpatialIndex) (rows : List Row),
      (enrich zoneIdxs fregIdx rows).length = rows.length ∧
      (∀ k, (enrich zoneIdxs fregIdx rows).get? k =
        (rows.get? k).map (enrichRow zoneIdxs fregIdx)) ∧
      (∀ k r, rows.get? k = some r →
        (pyFloat r.lat = none ∨ pyFloat r.lon = none) →
        (enrich zoneIdxs fregIdx rows).get? k = some (none, none)) := by
  intro zoneIdxs fregIdx rows
  refine ⟨List.length_map rows _, fun k => List.get?_map _ rows k, ?_⟩
  intro k r hk hbad
  rw [show enrich zoneIdxs fregIdx rows = rows.map (enrichRow zoneIdxs fregIdx) from rfl,
    List.get?_map, hk, Option.map_some']
  have hrow : enrichRow zoneIdxs fregIdx r = (none, none) := by
    unfold enrichRow
    rcases hbad with h | h
    · rw [h]
    · cases hlat : pyFloat r.lat with
      | none => rfl
      | some lat => rw [h]
  rw [hrow]

/-- Witness for C8: a batch whose first row has latitude "N/A" yields
the absent pair at position 0 while the second row's entry stays the
plain per-row value. -/
theorem c8_witness :
    (enrich [] emptyIdx [⟨"Retail", "N/A", "1"⟩, ⟨"Office", "1", "1"⟩]).get? 0 =
      some (none, none) :=
  (c8_enrich_per_row_failure [] emptyIdx
    [⟨"Retail", "N/A", "1"⟩, ⟨"Office", "1", "1"⟩]).2.2 0
    ⟨"Retail", "N/A", "1"⟩ rfl (Or.inl rfl)

/-- C10: normalize_sector is idempotent: every canonical output
normalizes to itself, and the trimmed fallback output is a fixed point
because trimming is idempotent. -/
theorem c10_normalize_sector_idempotent :
    ∀ v : String, normalize_sector (normalize_sector v) = normalize_sector v := by
  intro v
  by_cases h1 : (pyLower (pyStrip v) == "hsr" || pyLower (pyStrip v) == "retail" ||
      strContains (pyLower (pyStrip v)) "retail") = true
  · have hv : normalize_sector v = "Retail" := by simp [normalize_sector, h1]
    rw [hv]
    decide
  · rw [Bool.not_eq_true] at h1
    by_cases h2 : (pyLower (pyStrip v) == "office" ||
        strContains (pyLower (pyStrip v)) "office") = true
    · have hv : normalize_sector v = "Office" := by simp [normalize_sector, h1, h2]
      rw [hv]
      decide
    · rw [Bool.not_eq_true] at h2
      by_cases h3 : (strContains (pyLower (pyStrip v)) "industrial" ||
          strContains (pyLower (pyStrip v)) "logistics") = true
      · have hv : normalize_sector v = "Industrial & Logistics" := by
          simp [normalize_sector, h1, h2, h3]
        rw [hv]
        decide
      · rw [Bool.not_eq_true] at h3
        have hv : normalize_sector v = pyStrip v := by
          simp [normalize_sector, h1, h2, h3]
        rw [hv]
        have e1 : pyLower (pyStrip (pyStrip v)) = pyLower (pyStrip v) := by
          rw [pyStrip_idem]
        simp [normalize_sector, e1, h1, h2, h3, pyStrip_idem]

/-! The alignment invariant of the index builders: the geometry and the
label accumulators always grow in lock step. -/

theorem dictExtend_len {acc : List (String × List (List Pt) × List String)}
    {k : String} {gs : List (List Pt)} {vs : List String}
    (hacc : ∀ e ∈ acc, e.2.1.length = e.2.2.length)
    (hlen : gs.length = vs.length) :
    ∀ e ∈ dictExtend acc k gs vs, e.2.1.length = e.2.2.length := by
  induction acc with
  | nil =>
    intro e he
    unfold dictExtend at he
    rcases List.mem_cons.mp he with h | h
    · subst h
      simpa using hlen
    · cases h
  | cons x rest ih =>
    intro e he
    obtain ⟨k1, g1, v1⟩ := x
    unfold dictExtend at he
    by_cases hk : (k1 == k) = true
    · rw [if_pos hk] at he
      rcases List.mem_cons.mp he with h | h
      · subst h
        have := hacc (k1, g1, v1) (List.mem_cons_self _ _)
        simp only [List.length_append]
        simp only at this
        omega
      · exact hacc e (List.mem_cons_of_mem _ h)
    · rw [if_neg hk] at he
      rcases List.mem_cons.mp he with h | h
      · subst h
        exact hacc (k1, g1, v1) (List.mem_cons_self _ _)
      · exact ih (fun e2 he2 => hacc e2 (List.mem_cons_of_mem _ he2)) e h

theorem zonePlacemarksAux_len (s : String) :
    ∀ (pms : List Placemark) (acc acc2 : List (String × List (List Pt) × List String)),
      (∀ e ∈ acc, e.2.1.length = e.2.2.length) →
      zonePlacemarksAux s pms acc = some acc2 →
      ∀ e ∈ acc2, e.2.1.length = e.2.2.length := by
  intro pms
  induction pms with
  | nil =>
    intro acc acc2 hacc h
    injection h with h
    subst h
    exact hacc
  | cons pm rest ih =>
    intro acc acc2 hacc h
    unfold zonePlacemarksAux at h
    simp only [] at h
    split at h
    · exact ih acc acc2 hacc h
    · split at h
      · cases h
      · split at h
        · exact ih acc acc2 hacc h
        · refine ih _ acc2 (dictExtend_len hacc ?_) h
          simp [List.length_replicate]

theorem zoneFilesAux_len :
    ∀ (files : List (String × List Placemark))
      (acc acc2 : List (String × List (List Pt) × List String)),
      (∀ e ∈ acc, e.2.1.length = e.2.2.length) →
      zoneFilesAux files acc = some acc2 →
      ∀ e ∈ acc2, e.2.1.length = e.2.2.length := by
  intro files
  induction files with
  | nil =>
    intro acc acc2 hacc h
    injection h with h
    subst h
    exact hacc
  | cons f rest ih =>
    intro acc acc2 hacc h
    obtain ⟨filename, pms⟩ := f
    unfold zoneFilesAux at h
    split at h
    · exact ih acc acc2 hacc h
    · rename_i sector heq
      split at h
      · cases h
      · rename_i accMid heqMid
        exact ih accMid acc2 (zonePlacemarksAux_len sector pms acc accMid hacc heqMid) h

theorem fregAux_len :
    ∀ (pms : List Placemark) (gs : List (List Pt)) (vs : List String)
      (gs2 : List (List Pt)) (vs2 : List String),
      gs.length = vs.length →
      fregAux pms gs vs = some (gs2, vs2) →
      gs2.length = vs2.length := by
  intro pms
  induction pms with
  | nil =>
    intro gs vs gs2 vs2 hlen h
    injection h with h
    rw [Prod.mk.injEq] at h
    obtain ⟨h1, h2⟩ := h
    subst h1
    subst h2
    exact hlen
  | cons pm rest ih =>
    intro gs vs gs2 vs2 hlen h
    unfold fregAux at h
    simp only [] at h
    split at h
    · exact ih gs vs gs2 vs2 hlen h
    · split at h
      · cases h
      · rename_i polys heq
        refine ih _ _ gs2 vs2 ?_ h
        simp [List.length_append, List.length_replicate, hlen]

/-- C9: every SpatialIndex either builder produces is position-aligned:
its label list has the same length as its geometry list; consequently,
for any aligned index, every label lookup_point returns is the label
stored at the position of a geometry that covers the point, and whenever
some bounding-box candidate's geometry covers the point the lookup
returns a label (the out-of-range None branch is unreachable). -/
theorem c9_spatial_index_alignment :
    (∀ (files : List (String × List Placemark)) (idxs : List (String × SpatialIndex)),
        build_zone_indexes_from_paths files = some idxs →
        ∀ e ∈ idxs, e.2.values.length = e.2.geoms.length) ∧
    (∀ (pms : List Placemark) (idx : SpatialIndex),
        build_freguesia_index_from_path pms = some idx →
        idx.values.length = idx.geoms.length) ∧
    (∀ idx : SpatialIndex, idx.values.length = idx.geoms.length →
      ∀ lat lon : Q,
        (∀ v, lookup_point idx lat lon = some v →
          ∃ i, ringCovers (idx.geoms.getD i []) (lon, lat) = true ∧
            idx.values.get? i = some v) ∧
        (∀ i, i ∈ treeQuery idx.geoms (lon, lat) →
          ringCovers (idx.geoms.getD i []) (lon, lat) = true →
          ∃ v, lookup_point idx lat lon = some v)) := by
  refine ⟨?_, ?_, ?_⟩
  · intro files idxs hb e he
    unfold build_zone_indexes_from_paths at hb
    rw [Option.map_eq_some'] at hb
    obtain ⟨acc, hacc, hmap⟩ := hb
    subst hmap
    obtain ⟨a, ha, hae⟩ := List.mem_map.mp he
    have hlen := zoneFilesAux_len files [] acc (by intro e2 he2; cases he2) hacc a ha
    rw [← hae]
    exact hlen.symm
  · intro pms idx hb
    unfold build_freguesia_index_from_path at hb
    rw [Option.map_eq_some'] at hb
    obtain ⟨gv, hgv, hmap⟩ := hb
    subst hmap
    exact (fregAux_len pms [] [] gv.1 gv.2 rfl (by rw [hgv])).symm
  · intro idx hlen lat lon
    constructor
    · intro v hv
      obtain ⟨i, _, hcov, hval⟩ := lookupScan_some hv
      exact ⟨i, hcov, hval⟩
    · intro i hi hcov
      exact lookupScan_isSome hlen (fun j hj => treeQuery_mem_lt hj) hi hcov

/-- Witness for C9: the triangle build is aligned, and at the boundary
point (1,0) candidate position 0 covers, so the lookup returns a
label. -/
theorem c9_witness :
    triIdx.values.length = triIdx.geoms.length ∧
    (∃ v, lookup_point triIdx (qInt 0) (qInt 1) = some v) := by
  have halign := c9_spatial_index_alignment.1 [triFile] [("Retail", triIdx)] rfl
    ("Retail", triIdx) (List.mem_cons_self _ _)
  have hlook := (c9_spatial_index_alignment.2.2 triIdx halign (qInt 0) (qInt 1)).2
    0 (by decide) (by decide)
  exact ⟨halign, hlook⟩

end AssetEnricher
